import Mathlib

/-!
Verification development for the confucius configuration loader
(confucius.go).  Go strings are modelled as `List Char`; machine integers
as `Int`/`Nat` with explicit two's-complement wrapping where the Go code
truncates; fallible operations return `Except`/`Option` or a
`Val × Option GoErr` pair whose second component is the returned error and
whose first component is the destination's value after the call (so that
partial mutation on failure is observable).  External stdlib parsers whose
internals the repository does not contain (float, time and duration
parsing) are threaded as an oracle record `Oracles`; the claim-critical
parsers (bool, signed and unsigned integer) are modelled concretely after
strconv.
-/

set_option maxRecDepth 8000

/-- Convert a Lean string literal to the `List Char` representation used
throughout this development. -/
def s2l (s : String) : List Char := s.toList

/-- Go error values are modelled by their message text. -/
abbrev GoErr := List Char

/-- Coercion target kinds of a leaf destination, following the dispatch of
`setValue` (confucius.go:344-403): pointer, slice, bool, sized signed
integers (`time.Duration` separated out, as the code tests for it
dynamically), sized unsigned integers, floats, string, `time.Time`
(the one struct the coercer accepts), other structs, and interface-like
destinations (the `default` arm). -/
inductive Ty where
  | tBool : Ty
  | tInt : Nat → Ty
  | tUint : Nat → Ty
  | tFloat : Nat → Ty
  | tString : Ty
  | tDuration : Ty
  | tTime : Ty
  | tPtr : Ty → Ty
  | tSlice : Ty → Ty
  | tStruct : Ty
  | tIface : Ty

/-- Nesting depth of a type: an upper bound on the recursion depth of
`setValue`, used as structural fuel. -/
def Ty.depth : Ty → Nat
  | Ty.tPtr t => t.depth + 1
  | Ty.tSlice t => t.depth + 1
  | _ => 1

/-- Whether the kind is `reflect.Ptr`. -/
def Ty.isPtr : Ty → Bool
  | Ty.tPtr _ => true
  | _ => false

/-- Whether the kind is `reflect.Bool` (the kind `setDefaultValue` rejects). -/
def Ty.isBool : Ty → Bool
  | Ty.tBool => true
  | _ => false

/-- Rendering of a `reflect.Kind` as Go's `%v`/`%s` prints it, for the
kinds that appear in error messages. -/
def kindStr : Ty → List Char
  | Ty.tBool => s2l "bool"
  | Ty.tInt _ => s2l "int"
  | Ty.tUint _ => s2l "uint"
  | Ty.tFloat _ => s2l "float64"
  | Ty.tString => s2l "string"
  | Ty.tDuration => s2l "int64"
  | Ty.tTime => s2l "struct"
  | Ty.tPtr _ => s2l "ptr"
  | Ty.tSlice _ => s2l "slice"
  | Ty.tStruct => s2l "struct"
  | Ty.tIface => s2l "interface"

/-- Runtime values stored in a leaf destination.  Float and time values are
symbolic (the oracle's output), since no claim depends on float/time
arithmetic; a `none` payload is the Go zero value (0.0 resp. the zero
`time.Time`).  A pointer payload of `none` is a nil pointer. -/
inductive Val where
  | vBool : Bool → Val
  | vInt : Int → Val
  | vUint : Nat → Val
  | vFloat : Option (List Char) → Val
  | vStr : List Char → Val
  | vDur : Int → Val
  | vTime : Option (List Char) → Val
  | vPtr : Option Val → Val
  | vSlice : List Val → Val
  | vStruct : Val
  | vIface : Bool → Val

/-- Oracles for the stdlib parsers the repository calls but does not
contain: `strconv.ParseFloat` at 64 bits, `time.Parse` with a layout, and
`time.ParseDuration` (result in nanoseconds), plus the zero tests Go's
`IsZero` performs on their symbolic results. -/
structure Oracles where
  parseFloat : List Char → Option (List Char)
  parseTime : List Char → List Char → Option (List Char)
  parseDuration : List Char → Option Int
  floatIsZero : List Char → Bool
  timeIsZero : List Char → Bool

/-- An oracle instance on which every stdlib parse fails; used to
instantiate witnesses whose inputs never reach the oracle. -/
def oraclesOff : Oracles :=
  { parseFloat := fun _ => none
    parseTime := fun _ _ => none
    parseDuration := fun _ => none
    floatIsZero := fun _ => false
    timeIsZero := fun _ => false }

/-- The Go zero value of each kind (what `reflect.New` allocates and what
`reflect.MakeSlice` fills elements with). -/
def zeroVal : Ty → Val
  | Ty.tBool => Val.vBool false
  | Ty.tInt _ => Val.vInt 0
  | Ty.tUint _ => Val.vUint 0
  | Ty.tFloat _ => Val.vFloat none
  | Ty.tString => Val.vStr []
  | Ty.tDuration => Val.vDur 0
  | Ty.tTime => Val.vTime none
  | Ty.tPtr _ => Val.vPtr none
  | Ty.tSlice _ => Val.vSlice []
  | Ty.tStruct => Val.vStruct
  | Ty.tIface => Val.vIface true

/-- Value of a decimal digit character, `none` for a non-digit. -/
def digitVal (c : Char) : Option Nat :=
  if '0' ≤ c ∧ c ≤ '9' then some (c.toNat - '0'.toNat) else none

/-- Accumulate the decimal value of a digit string; `none` on the first
non-digit. -/
def digitsAux : List Char → Nat → Option Nat
  | [], acc => some acc
  | c :: rest, acc =>
    match digitVal c with
    | none => none
    | some d => digitsAux rest (acc * 10 + d)

/-- Decimal value of a non-empty all-digit string, `none` otherwise. -/
def digitsVal : List Char → Option Nat
  | [] => none
  | c :: rest => digitsAux (c :: rest) 0

/-- Error message of a `strconv` NumError, as `%v` renders it. -/
def numErr (fn : String) (val : List Char) (detail : String) : GoErr :=
  s2l ("strconv." ++ fn ++ ": parsing \x22") ++ val ++ s2l ("\x22: " ++ detail)

/-- Model of `strconv.ParseInt(val, 10, 64)`: an optional sign, then a
non-empty run of decimal digits, range-checked against int64 (Go returns
ErrRange on overflow, so `setValue` never reaches `SetInt` with an
out-of-int64 value). -/
def goParseInt64 (val : List Char) : Except GoErr Int :=
  match val with
  | '+' :: rest =>
    match digitsVal rest with
    | none => Except.error (numErr "ParseInt" val "invalid syntax")
    | some n =>
      if n ≤ 2 ^ 63 - 1 then Except.ok (n : Int)
      else Except.error (numErr "ParseInt" val "value out of range")
  | '-' :: rest =>
    match digitsVal rest with
    | none => Except.error (numErr "ParseInt" val "invalid syntax")
    | some n =>
      if n ≤ 2 ^ 63 then Except.ok (-(n : Int))
      else Except.error (numErr "ParseInt" val "value out of range")
  | _ =>
    match digitsVal val with
    | none => Except.error (numErr "ParseInt" val "invalid syntax")
    | some n =>
      if n ≤ 2 ^ 63 - 1 then Except.ok (n : Int)
      else Except.error (numErr "ParseInt" val "value out of range")

/-- Model of `strconv.ParseUint(val, 10, 64)`: a non-empty run of decimal
digits with no sign permitted (a leading minus or plus is a syntax error),
range-checked against uint64. -/
def goParseUint64 (val : List Char) : Except GoErr Nat :=
  match digitsVal val with
  | none => Except.error (numErr "ParseUint" val "invalid syntax")
  | some n =>
    if n ≤ 2 ^ 64 - 1 then Except.ok n
    else Except.error (numErr "ParseUint" val "value out of range")

/-- Model of `strconv.ParseBool`: the exact token sets Go accepts. -/
def goParseBool (val : List Char) : Except GoErr Bool :=
  if val = s2l "1" ∨ val = s2l "t" ∨ val = s2l "T" ∨ val = s2l "true" ∨
      val = s2l "TRUE" ∨ val = s2l "True" then Except.ok true
  else if val = s2l "0" ∨ val = s2l "f" ∨ val = s2l "F" ∨ val = s2l "false" ∨
      val = s2l "FALSE" ∨ val = s2l "False" then Except.ok false
  else Except.error (numErr "ParseBool" val "invalid syntax")

/-- Two's-complement truncation performed by `reflect.Value.SetInt` when the
destination is narrower than int64 (Go's SetInt stores `int8(x)` etc.
without any range check). -/
def wrapInt (bits : Nat) (n : Int) : Int :=
  (n + 2 ^ (bits - 1)) % (2 ^ bits : Int) - 2 ^ (bits - 1)

/-- Whether a character is cut by Go's `strings.TrimSpace` (the ASCII white
space relevant to the inputs at hand). -/
def isSpaceChar (c : Char) : Bool :=
  c = ' ' ∨ c = '\t' ∨ c = '\n' ∨ c = '\r'

/-- Model of `strings.TrimSpace` on ASCII input. -/
def trimSpaceL (s : List Char) : List Char :=
  ((s.dropWhile isSpaceChar).reverse.dropWhile isSpaceChar).reverse

/-- Model of Go's `strings.Split(s, sep)` for a one-character separator:
splits around every occurrence, keeping empty pieces, and yields one piece
(the whole string) when the separator does not occur. -/
def splitOnChar (sep : Char) : List Char → List (List Char)
  | [] => [[]]
  | c :: rest =>
    if c = sep then [] :: splitOnChar sep rest
    else
      match splitOnChar sep rest with
      | [] => [[c]]
      | w :: ws => (c :: w) :: ws

/-- Modelled from the spec: the sequence-literal splitter `stringSlice`,
whose source file is not part of the staged repository (only its caller
`setSlice` is).  Per the spec's Sequence Literal Parser contract: an
optional enclosing bracket pair is removed, the remainder is split on
commas with empty elements preserved, and each element is trimmed of
surrounding whitespace. -/
def stringSlice (val : List Char) : List (List Char) :=
  let s := trimSpaceL val
  let inner :=
    match s with
    | '[' :: rest =>
      match rest.reverse with
      | ']' :: rrest => rrest.reverse
      | _ => rest
    | other => other
  (splitOnChar ',' inner).map trimSpaceL

/-- One step bound for `goReplaceAllAux`: each recursive call consumes at
least one character, so the input length is sufficient fuel. -/
def goReplaceAllAux (pat rep : List Char) : Nat → List Char → List Char
  | 0, s => s
  | _ + 1, [] => []
  | fuel + 1, c :: rest =>
    if pat.isPrefixOf (c :: rest) ∧ pat ≠ [] then
      rep ++ goReplaceAllAux pat rep fuel (List.drop (pat.length - 1) rest)
    else
      c :: goReplaceAllAux pat rep fuel rest

/-- Model of `strings.ReplaceAll(s, pat, rep)` for a non-empty pattern:
left-to-right, non-overlapping replacement of every occurrence. -/
def goReplaceAll (pat rep s : List Char) : List Char :=
  goReplaceAllAux pat rep s.length s

/-- Message produced when setting a value into a destination whose kind the
coercer does not support (confucius.go:397,400): `unsupported type %s`. -/
def msgUnsupportedKind (t : Ty) : GoErr :=
  s2l "unsupported type " ++ kindStr t

/-- Artifact message for a type/value mismatch the Go code cannot exhibit
(reflection guarantees the value matches its kind); kept so the model is a
total function. -/
def msgMismatch : GoErr := s2l "model: kind and value disagree"

/-- Artifact message for exhausted fuel; unreachable when the fuel is the
destination type's depth. -/
def msgNoFuel : GoErr := s2l "model: fuel exhausted"

/-- Message of a failed `time.ParseDuration`. -/
def msgBadDuration : GoErr := s2l "time: invalid duration"

/-- Message of a failed `strconv.ParseFloat`. -/
def msgBadFloat : GoErr := s2l "strconv.ParseFloat: invalid syntax"

/-- Message of a failed `time.Parse`. -/
def msgBadTime : GoErr := s2l "parsing time: layout mismatch"

/-- Fueled body of `setValue` (confucius.go:344-403).  The result pair is
(the destination's value after the call, the returned error).  The slice
arm inlines `setSlice` (confucius.go:409-418): a fresh slice is built
element by element from zero values, and the destination is overwritten
only after every element coerced (so the destination is untouched on
failure).  The pointer arm mirrors lines 346-350: a nil pointer is first
replaced by a freshly allocated zero pointee, then the pointee is coerced
in place, so the allocation persists even when the pointee coercion
fails. -/
def setValueAux (ext : Oracles) (layout : List Char) :
    Nat → Ty → Val → List Char → Val × Option GoErr
  | 0, _, v, _ => (v, some msgNoFuel)
  | fuel + 1, t, v, val =>
    match t, v with
    | Ty.tPtr te, Val.vPtr p =>
      let cur := match p with | none => zeroVal te | some inner => inner
      let r := setValueAux ext layout fuel te cur val
      (Val.vPtr (some r.1), r.2)
    | Ty.tSlice te, sv =>
      let r := (stringSlice val).foldl
        (fun acc s =>
          match acc with
          | Except.error e => Except.error e
          | Except.ok elems =>
            match setValueAux ext layout fuel te (zeroVal te) s with
            | (_, some e) => Except.error e
            | (ev, none) => Except.ok (elems ++ [ev]))
        (Except.ok [])
      match r with
      | Except.error e => (sv, some e)
      | Except.ok elems => (Val.vSlice elems, none)
    | Ty.tBool, bv =>
      match goParseBool val with
      | Except.error e => (bv, some e)
      | Except.ok b => (Val.vBool b, none)
    | Ty.tInt bits, iv =>
      match goParseInt64 val with
      | Except.error e => (iv, some e)
      | Except.ok i => (Val.vInt (wrapInt bits i), none)
    | Ty.tDuration, dv =>
      match ext.parseDuration val with
      | none => (dv, some msgBadDuration)
      | some d => (Val.vDur d, none)
    | Ty.tUint bits, uv =>
      match goParseUint64 val with
      | Except.error e => (uv, some e)
      | Except.ok n => (Val.vUint (n % 2 ^ bits), none)
    | Ty.tFloat _, fv =>
      match ext.parseFloat val with
      | none => (fv, some msgBadFloat)
      | some f => (Val.vFloat (some f), none)
    | Ty.tString, _ => (Val.vStr val, none)
    | Ty.tTime, tv =>
      match ext.parseTime layout val with
      | none => (tv, some msgBadTime)
      | some tm => (Val.vTime (some tm), none)
    | Ty.tStruct, sv => (sv, some (msgUnsupportedKind Ty.tStruct))
    | Ty.tIface, iv => (iv, some (msgUnsupportedKind Ty.tIface))
    | Ty.tPtr _, other => (other, some msgMismatch)

/-- Model of `(*confucius).setValue` (confucius.go:344-403): coerce the raw
string `val` into the destination of kind `t` currently holding `v`;
returns the destination's value after the call and the error, if any. -/
def setValue (ext : Oracles) (layout : List Char) (t : Ty) (v : Val)
    (val : List Char) : Val × Option GoErr :=
  setValueAux ext layout t.depth t v val

/-- Fueled body of `isZero`. -/
def isZeroAux (ext : Oracles) : Nat → Ty → Val → Bool
  | 0, _, _ => true
  | fuel + 1, t, v =>
    match t, v with
    | Ty.tPtr te, Val.vPtr p =>
      match p with
      | none => true
      | some inner => isZeroAux ext fuel te inner
    | Ty.tSlice _, Val.vSlice es => es.isEmpty
    | Ty.tBool, Val.vBool b => !b
    | Ty.tInt _, Val.vInt n => n == 0
    | Ty.tUint _, Val.vUint n => n == 0
    | Ty.tFloat _, Val.vFloat f =>
      match f with
      | none => true
      | some x => ext.floatIsZero x
    | Ty.tString, Val.vStr s => s.isEmpty
    | Ty.tDuration, Val.vDur d => d == 0
    | Ty.tTime, Val.vTime tm =>
      match tm with
      | none => true
      | some x => ext.timeIsZero x
    | Ty.tStruct, _ => false
    | Ty.tIface, Val.vIface isNil => isNil
    | _, _ => true

/-- Modelled from the spec: the set-ness test `isZero`, whose source file
is not part of the staged repository (only its caller `processField` is).
Per the spec's required-ness semantics and the package documentation:
basic kinds compare against their zero value, strings against empty,
slices against zero length, durations against 0, `time.Time` against its
zero instant, a nil pointer is zero and a non-nil pointer is judged by its
pointee, any other struct is never zero, and an interface is zero exactly
when nil. -/
def isZero (ext : Oracles) (t : Ty) (v : Val) : Bool :=
  isZeroAux ext t.depth t v

/-- Model of `(*confucius).setDefaultValue` (confucius.go:333-338): refuse
a boolean destination with `unsupported type: bool`, otherwise delegate to
`setValue`. -/
def setDefaultValue (ext : Oracles) (layout : List Char) (t : Ty) (v : Val)
    (val : List Char) : Val × Option GoErr :=
  if t.isBool then (v, some (s2l "unsupported type: bool"))
  else setValue ext layout t v val

/-- Configuration options of one load, mirroring the fields of the
`confucius` struct that the modelled functions read (the env prefix is
named `envPfx` here). -/
structure Confucius where
  useEnv : Bool
  envPfx : List Char
  timeLayout : List Char
  filename : List Char
  profileLayout : List Char

/-- Character-level effect of the replacer built in `formatEnvKey`
(confucius.go:324): `.` and `[` become `_`, `]` is deleted, everything
else passes through.  For one-character patterns Go's `strings.Replacer`
is exactly this character map. -/
def goReplacerEnv : List Char → List Char
  | [] => []
  | c :: rest =>
    if c = '.' then '_' :: goReplacerEnv rest
    else if c = '[' then '_' :: goReplacerEnv rest
    else if c = ']' then goReplacerEnv rest
    else c :: goReplacerEnv rest

/-- Model of `(*confucius).formatEnvKey` (confucius.go:322-329): run the
replacer over the path, prepend `pfx_` when the prefix is non-empty, then
uppercase the whole result. -/
def formatEnvKey (pfx key : List Char) : List Char :=
  let k := goReplacerEnv key
  let k2 := if pfx = [] then k else pfx ++ '_' :: k
  k2.map Char.toUpper

/-- Substitution of one path character as the spec's Path Formatter rule
states it: replace every `.` and `[` with `_`, delete every `]`. -/
def specEnvChar (c : Char) : List Char :=
  if c = '.' ∨ c = '[' then ['_'] else if c = ']' then [] else [c]

/-- The spec's Path Formatter, written from its words: substitute the
characters of the path, uppercase the entire result, and prepend the
(uppercased) prefix joined by an underscore when it is non-empty (the
spec's own example renders the prefix `myapp` as `MYAPP_`). -/
def specFormatEnvKey (pfx key : List Char) : List Char :=
  let subst := key.foldr (fun c acc => specEnvChar c ++ acc) []
  let up := subst.map Char.toUpper
  if pfx = [] then up else pfx.map Char.toUpper ++ '_' :: up

/-- One leaf descriptor, carrying what `processField` reads of the
repository's `field` struct: its two policy flags, the default literal,
the destination's kind and current value, and the rendered path. -/
structure FieldD where
  required : Bool
  setDefault : Bool
  defaultVal : List Char
  ty : Ty
  value : Val
  path : List Char

/-- An environment, mapping a key to its value when set
(`os.LookupEnv`). -/
abbrev EnvMap := List Char → Option (List Char)

/-- Model of `(*confucius).setFromEnv` (confucius.go:314-320): format the
key, look it up, and coerce the found value into the destination; a key
that is absent leaves the destination untouched and returns no error. -/
def setFromEnv (c : Confucius) (ext : Oracles) (env : EnvMap) (t : Ty)
    (v : Val) (key : List Char) : Val × Option GoErr :=
  match env (formatEnvKey c.envPfx key) with
  | some ev => setValue ext c.timeLayout t v ev
  | none => (v, none)

/-- The environment-overlay stage of `processField` (confucius.go:295-299):
a no-op unless environment use is enabled. -/
def envStep (c : Confucius) (ext : Oracles) (env : EnvMap) (f : FieldD) :
    Val × Option GoErr :=
  if c.useEnv then setFromEnv c ext env f.ty f.value f.path
  else (f.value, none)

/-- Message of the mutual-exclusion violation (confucius.go:292). -/
def msgBothRD : GoErr :=
  s2l "field cannot have both a required validation and a default value"

/-- Message of a failed required validation (confucius.go:302). -/
def msgRequired : GoErr := s2l "required validation failed"

/-- Model of `(*confucius).processField` (confucius.go:290-312): reject a
leaf that is both required and defaulted before anything else; otherwise
overlay the environment (wrapping a failure as `unable to set from env`),
then check required-ness against the post-overlay value, then inject the
default when the post-overlay value is zero (wrapping a failure as
`unable to set default`).  Returns the leaf's value after the call and
the error, if any. -/
def processField (c : Confucius) (ext : Oracles) (env : EnvMap)
    (f : FieldD) : Val × Option GoErr :=
  if f.required && f.setDefault then (f.value, some msgBothRD)
  else
    match envStep c ext env f with
    | (v1, some e) => (v1, some (s2l "unable to set from env: " ++ e))
    | (v1, none) =>
      if f.required && isZero ext f.ty v1 then (v1, some msgRequired)
      else if f.setDefault && isZero ext f.ty v1 then
        match setDefaultValue ext c.timeLayout f.ty v1 f.defaultVal with
        | (v2, some e) => (v2, some (s2l "unable to set default: " ++ e))
        | (v2, none) => (v2, none)
      else (v1, none)

/-- Model of `(*confucius).processCfg` (confucius.go:271-286) over a
flattened list of leaf descriptors: collect, per leaf in order, the error
`processField` reports, keyed by the leaf's path.  `Load` returns this
collection as its error exactly when it is non-empty. -/
def processCfg (c : Confucius) (ext : Oracles) (env : EnvMap) :
    List FieldD → List (List Char × GoErr)
  | [] => []
  | f :: rest =>
    match (processField c ext env f).2 with
    | some e => (f.path, e) :: processCfg c ext env rest
    | none => processCfg c ext env rest

/-- The file-and-reader phase of `(*confucius).Load`
(confucius.go:101-120), with the external collaborators abstracted:
`findCfg` is `findCfgFile`'s result (its path, and its error if any —
Go returns both), `decodeF` is `decodeFile` (whose result map is `nilV`
when it errors, as a failed Go decode returns a nil map), `decodeR` is
`decodeReader` on the configured reader, and `merge` is
`mergo.Merge(&readerVals, vals, WithOverride, WithTypeCheck)`.  Without a
reader, a find or decode error aborts the load; with a reader both errors
are discarded and the reader values merged with whatever file values were
obtained. -/
def loadPhase {V : Type} (nilV : V) (useReader : Bool)
    (findCfg : List Char × Option GoErr)
    (decodeF : List Char → Except GoErr V)
    (decodeR : Except GoErr V)
    (merge : V → V → Except GoErr V) : Except GoErr V :=
  match findCfg.2, useReader with
  | some e, false => Except.error e
  | _, _ =>
    match decodeF findCfg.1, useReader with
    | Except.error e, false => Except.error e
    | dres, _ =>
      let vals := match dres with | Except.ok v => v | Except.error _ => nilV
      if useReader then
        match decodeR with
        | Except.error e => Except.error e
        | Except.ok rv =>
          match merge rv vals with
          | Except.error e => Except.error e
          | Except.ok merged => Except.ok merged
      else Except.ok vals

/-- Model of `(*confucius).profileFileName` (confucius.go:145-152): split
the primary filename on `.`, then substitute the literal substrings
`config`, `test` and `yaml` of the layout by the first component, the
profile name and the second component respectively.  Go indexes the split
result at 0 and 1 unconditionally; a filename with no dot yields a single
component and the access to the second panics — modelled as `none`
(an abort, not an error return). -/
def profileFileName (c : Confucius) (profile : List Char) :
    Option (List Char) :=
  match splitOnChar '.' c.filename with
  | p0 :: p1 :: _ =>
    some (goReplaceAll (s2l "yaml") p1
      (goReplaceAll (s2l "test") profile
        (goReplaceAll (s2l "config") p0 c.profileLayout)))
  | _ => none

/-- The profile loop of `Load` (confucius.go:122-136) reduced to the
filename derivations it performs: each configured profile's filename is
computed in turn, and a panic in any derivation (modelled `none`)
aborts the whole load. -/
def profileFileNames (c : Confucius) : List (List Char) →
    Option (List (List Char))
  | [] => some []
  | p :: ps =>
    match profileFileName c p with
    | none => none
    | some n =>
      match profileFileNames c ps with
      | none => none
      | some ns => some (n :: ns)

/-- Scan for the first unescaped closing brace of a `$\x7b...\x7d` token:
returns the content before it and the remainder after it.  Mirrors the
regular expression `\$\x5c\x7b(.*?|)\x7d`: `.` does not match a newline, so
a newline before the closing brace means no match at this opening. -/
def takeToBrace : List Char → Option (List Char × List Char)
  | [] => none
  | c :: rest =>
    if c = '\x7d' then some ([], rest)
    else if c = '\n' then none
    else
      match takeToBrace rest with
      | some (content, rest') => some (c :: content, rest')
      | none => none

/-- Fueled scan for all non-overlapping leftmost matches of the token
regular expression, as `FindAllStringSubmatch` returns them: each match is
(whole token text, captured content). -/
def findTokensAux : Nat → List Char → List (List Char × List Char)
  | 0, _ => []
  | _ + 1, [] => []
  | fuel + 1, '$' :: '\x7b' :: rest =>
    match takeToBrace rest with
    | some (content, rest') =>
      ('$' :: '\x7b' :: (content ++ ['\x7d']), content) ::
        findTokensAux fuel rest'
    | none => findTokensAux fuel ('\x7b' :: rest)
  | fuel + 1, _ :: rest => findTokensAux fuel rest

/-- All `$\x7b...\x7d` tokens of a string, leftmost first. -/
def findTokens (s : List Char) : List (List Char × List Char) :=
  findTokensAux s.length s

/-- The replacement text for one token with non-empty content
(confucius.go:240-250): the part before the first colon is the variable
name; a set variable's value wins, otherwise the part after the first
colon when present, otherwise the empty string. -/
def substToken (env : EnvMap) (content : List Char) : List Char :=
  let s := splitOnChar ':' content
  let envName := s.headD []
  match env envName with
  | some v => v
  | none =>
    match s with
    | _ :: d :: _ => d
    | _ => []

/-- The loop of `replaceEnvironments` over the matches found in the
original string: a token with empty content stops with
`environment name is missing`; otherwise every occurrence of the token
text in the working result is replaced. -/
def replaceEnvGo (env : EnvMap) :
    List (List Char × List Char) → List Char → Except GoErr (List Char)
  | [], res => Except.ok res
  | (whole, content) :: ts, res =>
    if content = [] then Except.error (s2l "environment name is missing")
    else replaceEnvGo env ts (goReplaceAll whole (substToken env content) res)

/-- Model of `replaceEnvironments` (confucius.go:231-253): substitute
every `$\x7b...\x7d` token of the input against the environment. -/
def replaceEnvironments (env : EnvMap) (str : List Char) :
    Except GoErr (List Char) :=
  replaceEnvGo env (findTokens str) str

/-- A configuration with environment use disabled and empty options. -/
def conf0 : Confucius :=
  { useEnv := false, envPfx := [], timeLayout := [], filename := [],
    profileLayout := [] }

/-- A configuration with environment use enabled, empty prefix. -/
def conf4 : Confucius :=
  { useEnv := true, envPfx := [], timeLayout := [], filename := [],
    profileLayout := [] }

/-- The empty environment. -/
def envNone : EnvMap := fun _ => none

/-- Environment of the substitution examples: FOO=XXX, BAR=YYY. -/
def env8 : EnvMap := fun k =>
  if k = s2l "FOO" then some (s2l "XXX")
  else if k = s2l "BAR" then some (s2l "YYY")
  else none

/-- Environment with SIZE=3. -/
def env4w : EnvMap := fun k => if k = s2l "SIZE" then some (s2l "3") else none

/-- Environment with SIZE=0. -/
def env4d : EnvMap := fun k => if k = s2l "SIZE" then some (s2l "0") else none

/-- An int leaf tagged both required and defaulted. -/
def f3both : FieldD :=
  { required := true, setDefault := true, defaultVal := s2l "5",
    ty := Ty.tInt 64, value := Val.vInt 1, path := s2l "lvl" }

/-- A zero int leaf with default 5. -/
def f5def : FieldD :=
  { required := false, setDefault := true, defaultVal := s2l "5",
    ty := Ty.tInt 64, value := Val.vInt 0, path := s2l "port" }

/-- A boolean leaf currently true, carrying a default annotation. -/
def f6true : FieldD :=
  { required := false, setDefault := true, defaultVal := s2l "false",
    ty := Ty.tBool, value := Val.vBool true, path := s2l "b" }

/-- A boolean leaf currently false, carrying a default annotation. -/
def f6false : FieldD :=
  { required := false, setDefault := true, defaultVal := s2l "true",
    ty := Ty.tBool, value := Val.vBool false, path := s2l "b" }

/-- An int leaf with a file-decoded value 7 and no annotations. -/
def f4w : FieldD :=
  { required := false, setDefault := false, defaultVal := [],
    ty := Ty.tInt 64, value := Val.vInt 7, path := s2l "size" }

/-- An int leaf with a file-decoded value 7 and a default of 5. -/
def f4d : FieldD :=
  { required := false, setDefault := true, defaultVal := s2l "5",
    ty := Ty.tInt 64, value := Val.vInt 7, path := s2l "size" }

/-- A load whose primary filename has no dot. -/
def confNoDot : Confucius :=
  { useEnv := false, envPfx := [], timeLayout := [], filename := s2l "server",
    profileLayout := s2l "config.test.yaml" }

/-- A load of `server.json` with the default profile layout. -/
def confEx1 : Confucius :=
  { useEnv := false, envPfx := [], timeLayout := [],
    filename := s2l "server.json", profileLayout := s2l "config.test.yaml" }

/-- A load of `app.json` with a layout in which the substituted literals
occur mid-word. -/
def confEx2 : Confucius :=
  { useEnv := false, envPfx := [], timeLayout := [],
    filename := s2l "app.json", profileLayout := s2l "testconfig.yaml" }

/-- The code's replacer equals the spec's per-character substitution. -/
theorem goReplacerEnv_foldr (key : List Char) :
    goReplacerEnv key = key.foldr (fun c acc => specEnvChar c ++ acc) [] := by
  induction key with
  | nil => rfl
  | cons c rest ih =>
    by_cases h1 : c = '.'
    · simp [goReplacerEnv, specEnvChar, h1, ih]
    · by_cases h2 : c = '['
      · simp [goReplacerEnv, specEnvChar, h1, h2, ih]
      · by_cases h3 : c = ']'
        · simp [goReplacerEnv, specEnvChar, h1, h2, h3, ih]
        · simp [goReplacerEnv, specEnvChar, h1, h2, h3, ih]

/-- Uppercasing fixes the underscore separator. -/
theorem toUpper_underscore : Char.toUpper '_' = '_' := rfl

/-- C7: for every path and prefix the environment key is obtained by
replacing `.` and `[` with `_`, deleting `]`, uppercasing the whole result
and prepending the uppercased prefix joined by `_` when non-empty; in
particular `loggers[0].log_level` formats to `LOGGERS_0_LOG_LEVEL` with an
empty prefix and to `MYAPP_LOGGERS_0_LOG_LEVEL` with prefix `myapp`. -/
theorem formatEnvKey_matches_spec :
    (∀ pfx key, formatEnvKey pfx key = specFormatEnvKey pfx key)
    ∧ formatEnvKey [] (s2l "loggers[0].log_level") = s2l "LOGGERS_0_LOG_LEVEL"
    ∧ formatEnvKey (s2l "myapp") (s2l "loggers[0].log_level") =
        s2l "MYAPP_LOGGERS_0_LOG_LEVEL" := by
  refine ⟨fun pfx key => ?_, rfl, rfl⟩
  unfold formatEnvKey specFormatEnvKey
  rw [goReplacerEnv_foldr]
  by_cases h : pfx = []
  · simp [h]
  · simp [h, List.map_append, toUpper_underscore]

/-- Splitting on a separator that does not occur yields the whole string as
the single piece. -/
theorem splitOnChar_no_sep (sep : Char) (l : List Char) (h : sep ∉ l) :
    splitOnChar sep l = [l] := by
  induction l with
  | nil => rfl
  | cons c rest ih =>
    have hc : ¬ c = sep := fun hcc => h (hcc ▸ List.mem_cons_self c rest)
    have hr : sep ∉ rest := fun hm => h (List.mem_cons_of_mem _ hm)
    simp [splitOnChar, hc, ih hr]

/-- C10: profile filename derivation presupposes a dot in the primary
filename — with at least one profile configured and a dotless filename the
derivation hits the missing second component and the load aborts (modelled
`none`) instead of returning an error; and the layout substitution
replaces the literal substrings `config`, `test` and `yaml` wherever they
occur: `server.json` with layout `config.test.yaml` and profile `prod`
derives `server.prod.json`, and `app.json` with layout `testconfig.yaml`
and profile `dev` derives `devapp.json`. -/
theorem profileFileName_dotless_aborts :
    (∀ (c : Confucius) (p : List Char) (ps : List (List Char)),
        '.' ∉ c.filename → profileFileNames c (p :: ps) = none)
    ∧ profileFileName confEx1 (s2l "prod") = some (s2l "server.prod.json")
    ∧ profileFileName confEx2 (s2l "dev") = some (s2l "devapp.json") := by
  refine ⟨fun c p ps h => ?_, rfl, rfl⟩
  simp [profileFileNames, profileFileName, splitOnChar_no_sep '.' c.filename h]

/-- C10 witness: the load of `confNoDot` (primary filename `server`, one
profile) aborts in the filename derivation. -/
theorem profileFileName_dotless_aborts_witness :
    profileFileNames confNoDot [s2l "test"] = none :=
  profileFileName_dotless_aborts.1 confNoDot (s2l "test") [] (by decide)

/-- C9: with an in-memory reader configured, the file-and-reader phase of
`Load` never surfaces the find error (the file-not-found sentinel) or the
file decode error: its result is the reader decode merged with the file
values when the file decoded, or with the nil map when it did not; without
a reader, a find error aborts the load. -/
theorem loadPhase_reader_discards_file_errors {V : Type} (nilV : V)
    (p : List Char) (fe : Option GoErr)
    (decodeF : List Char → Except GoErr V)
    (decodeR : Except GoErr V)
    (merge : V → V → Except GoErr V) :
    loadPhase nilV true (p, fe) decodeF decodeR merge =
      (match decodeR with
       | Except.error e => Except.error e
       | Except.ok rv =>
         match merge rv (match decodeF p with
           | Except.ok v => v
           | Except.error _ => nilV) with
         | Except.error e => Except.error e
         | Except.ok m => Except.ok m)
    ∧ (∀ e, loadPhase nilV false (p, some e) decodeF decodeR merge =
        Except.error e) := by
  constructor
  · cases fe <;> cases hd : decodeF p <;> simp [loadPhase, hd]
  · intro e; rfl

/-- The substitution loop errors exactly when some remaining token has
empty content (the error does not depend on the working result). -/
theorem replaceEnvGo_error_iff (env : EnvMap) :
    ∀ (ts : List (List Char × List Char)) (res : List Char),
      (∃ e, replaceEnvGo env ts res = Except.error e) ↔
        ∃ w, (w, ([] : List Char)) ∈ ts := by
  intro ts
  induction ts with
  | nil => intro res; simp [replaceEnvGo]
  | cons t ts ih =>
    intro res
    obtain ⟨w, c⟩ := t
    by_cases hc : c = []
    · subst hc
      constructor
      · intro _; exact ⟨w, List.mem_cons_self _ _⟩
      · intro _; exact ⟨s2l "environment name is missing", by simp [replaceEnvGo]⟩
    · simp only [replaceEnvGo, if_neg hc, ih]
      constructor
      · intro ⟨w', hw⟩; exact ⟨w', List.mem_cons_of_mem _ hw⟩
      · intro ⟨w', hw⟩
        rcases List.mem_cons.mp hw with heq | hmem
        · exact absurd (congrArg Prod.snd heq).symm hc
        · exact ⟨w', hmem⟩

/-- C8 (amended): the substitution returns an error exactly when some
token's entire brace content is empty — a token with an empty name portion
but a colon and default, such as the counterexample's, is substituted, not
rejected; a set variable's value wins, an unset variable falls back to the
inline default when present and to the empty string otherwise. -/
theorem replaceEnvironments_amended :
    (∀ (env : EnvMap) (s : List Char),
        (∃ e, replaceEnvironments env s = Except.error e) ↔
          ∃ w, (w, ([] : List Char)) ∈ findTokens s)
    ∧ replaceEnvironments env8 (s2l "/x/y/$\x7bBAZ:a\x7d") =
        Except.ok (s2l "/x/y/a")
    ∧ replaceEnvironments env8 (s2l "/x/y/$\x7bFOO\x7d") =
        Except.ok (s2l "/x/y/XXX")
    ∧ replaceEnvironments env8 (s2l "/x/y/$\x7bBAZ\x7d") =
        Except.ok (s2l "/x/y/")
    ∧ replaceEnvironments env8 (s2l "/x/y/$\x7bFOO\x7d/z/$\x7bBAR\x7d") =
        Except.ok (s2l "/x/y/XXX/z/YYY")
    ∧ replaceEnvironments env8 (s2l "/x/y/$\x7b\x7d") =
        Except.error (s2l "environment name is missing") :=
  ⟨fun env s => replaceEnvGo_error_iff env (findTokens s) s,
    rfl, rfl, rfl, rfl, rfl⟩

/-- C8 counterexample: in the token of `$\x7b:d\x7d` the name portion
(before the colon) is empty, yet the substitution succeeds with the inline
default instead of returning an error. -/
theorem replaceEnvironments_emptyname_counterexample :
    (splitOnChar ':' (s2l ":d")).headD [] = []
    ∧ replaceEnvironments envNone (s2l "$\x7b:d\x7d") = Except.ok (s2l "d") :=
  ⟨rfl, rfl⟩

/-- C3: a leaf whose tags set both the required validation and a default is
rejected by `processField` with the mutual-exclusion message before the
environment overlay, the required check or the default injection can act
(its value is returned unchanged and the result does not depend on the
environment), and `processCfg` records the error at that leaf's path. -/
theorem processField_required_and_default_conflict (c : Confucius)
    (ext : Oracles) (env : EnvMap) (f : FieldD)
    (h1 : f.required = true) (h2 : f.setDefault = true) :
    processField c ext env f = (f.value, some msgBothRD)
    ∧ ∀ fields : List FieldD, f ∈ fields →
        (f.path, msgBothRD) ∈ processCfg c ext env fields := by
  have hpf : processField c ext env f = (f.value, some msgBothRD) := by
    simp [processField, h1, h2]
  refine ⟨hpf, fun fields => ?_⟩
  induction fields with
  | nil => intro hm; cases hm
  | cons g rest ih =>
    intro hm
    rcases List.mem_cons.mp hm with heq | hmem
    · subst heq
      simp [processCfg, hpf]
    · cases hg : (processField c ext env g).2 <;>
        simp only [processCfg, hg] <;>
        first
          | exact ih hmem
          | exact List.mem_cons_of_mem _ (ih hmem)

/-- C3 witness: a concrete required-and-defaulted int leaf holding 1. -/
theorem processField_required_and_default_conflict_witness :
    processField conf0 oraclesOff envNone f3both = (Val.vInt 1, some msgBothRD)
    ∧ (s2l "lvl", msgBothRD) ∈ processCfg conf0 oraclesOff envNone [f3both] :=
  ⟨(processField_required_and_default_conflict conf0 oraclesOff envNone f3both
      rfl rfl).1,
    (processField_required_and_default_conflict conf0 oraclesOff envNone f3both
      rfl rfl).2 [f3both] (List.mem_singleton.mpr rfl)⟩

/-- C5: for a defaulted (and, per the mutual-exclusion invariant, not
required) leaf whose environment overlay succeeded: when the post-overlay
value is zero, a successful coercion of the default literal becomes the
leaf's final value, and a failing `setDefaultValue` is reported as
`unable to set default: <detail>`; when the post-overlay value is
non-zero, the leaf is left unchanged. -/
theorem processField_default_injection (c : Confucius) (ext : Oracles)
    (env : EnvMap) (f : FieldD) (v1 : Val)
    (hd : f.setDefault = true) (hr : f.required = false)
    (he : envStep c ext env f = (v1, none)) :
    (∀ v2, isZero ext f.ty v1 = true → f.ty.isBool = false →
        setValue ext c.timeLayout f.ty v1 f.defaultVal = (v2, none) →
        processField c ext env f = (v2, none))
    ∧ (∀ v2 e, isZero ext f.ty v1 = true →
        setDefaultValue ext c.timeLayout f.ty v1 f.defaultVal = (v2, some e) →
        processField c ext env f =
          (v2, some (s2l "unable to set default: " ++ e)))
    ∧ (isZero ext f.ty v1 = false → processField c ext env f = (v1, none)) := by
  refine ⟨?_, ?_, ?_⟩
  · intro v2 hz hb hsv
    simp [processField, hr, hd, he, hz, setDefaultValue, hb, hsv]
  · intro v2 e hz hsd
    simp [processField, hr, hd, he, hz, hsd]
  · intro hz
    simp [processField, hr, hd, he, hz]

/-- C5 witness: a zero int leaf with default literal 5 ends at 5. -/
theorem processField_default_injection_witness :
    processField conf0 oraclesOff envNone f5def = (Val.vInt 5, none) :=
  (processField_default_injection conf0 oraclesOff envNone f5def (Val.vInt 0)
      rfl rfl rfl).1 (Val.vInt 5) rfl rfl rfl

/-- C6 (amended): a boolean leaf carrying a default annotation is rejected
with `unsupported type` exactly when the default injection is attempted,
that is when the boolean's post-overlay value is false (zero), whatever
the default literal; when the boolean is true, no error is raised and the
value is kept. -/
theorem processField_bool_default (c : Confucius) (ext : Oracles)
    (env : EnvMap) (f : FieldD) (b : Bool)
    (ht : f.ty = Ty.tBool) (hd : f.setDefault = true) (hr : f.required = false)
    (he : envStep c ext env f = (Val.vBool b, none)) :
    processField c ext env f =
      (if b then (Val.vBool true, none)
       else (Val.vBool false,
         some (s2l "unable to set default: unsupported type: bool"))) := by
  simp only [processField, hr, hd, he, ht]
  cases b <;> simp [isZero, isZeroAux, Ty.depth, setDefaultValue, Ty.isBool]
  decide

/-- C6 witness: a false boolean leaf with a default annotation is rejected
with the wrapped `unsupported type: bool` message. -/
theorem processField_bool_default_witness :
    processField conf0 oraclesOff envNone f6false =
      (Val.vBool false,
        some (s2l "unable to set default: unsupported type: bool")) :=
  (processField_bool_default conf0 oraclesOff envNone f6false false
    rfl rfl rfl rfl).trans rfl

/-- C6 counterexample: a boolean leaf with a default annotation whose
current value is true is not rejected — `processField` returns no error,
refuting `rejected unconditionally ... regardless of the boolean's current
value`. -/
theorem processField_bool_default_true_counterexample :
    f6true.ty = Ty.tBool ∧ f6true.setDefault = true
    ∧ processField conf0 oraclesOff envNone f6true = (Val.vBool true, none) :=
  ⟨rfl, rfl, rfl⟩

/-- C4 (amended): with environment use enabled and the leaf's formatted key
present, a successful coercion of the environment string becomes the
leaf's value after `processField` — overwriting any file-decoded value,
for all leaf kinds — provided the leaf does not carry a default with the
coerced value being zero (in that case the default injection overwrites
the zero environment value, see the counterexample); and an absent key
leaves the destination untouched in the overlay. -/
theorem env_overlay_precedence_amended :
    (∀ (c : Confucius) (ext : Oracles) (env : EnvMap) (f : FieldD)
        (ev : List Char) (v' : Val),
        c.useEnv = true → (f.required && f.setDefault) = false →
        env (formatEnvKey c.envPfx f.path) = some ev →
        setValue ext c.timeLayout f.ty f.value ev = (v', none) →
        (f.setDefault = true → isZero ext f.ty v' = false) →
        (processField c ext env f).1 = v')
    ∧ (∀ (c : Confucius) (ext : Oracles) (env : EnvMap) (t : Ty) (v : Val)
        (key : List Char),
        env (formatEnvKey c.envPfx key) = none →
        setFromEnv c ext env t v key = (v, none)) := by
  constructor
  · intro c ext env f ev v' hue hx hk hcoe hnd
    have he : envStep c ext env f = (v', none) := by
      simp [envStep, hue, setFromEnv, hk, hcoe]
    cases hsd : f.setDefault with
    | false =>
      by_cases hz : (f.required && isZero ext f.ty v') = true <;>
        simp [processField, hx, he, hsd, hz]
    | true =>
      have hz := hnd hsd
      have hrf : f.required = false := by
        cases hr2 : f.required
        · rfl
        · rw [hr2, hsd] at hx; cases hx
      simp [processField, he, hsd, hz, hrf]
  · intro c ext env t v key hk
    simp [setFromEnv, hk]

/-- C4 witness: an int leaf holding the file value 7 is overwritten by the
environment value 3 found under its formatted key. -/
theorem env_overlay_precedence_amended_witness :
    (processField conf4 oraclesOff env4w f4w).1 = Val.vInt 3 :=
  env_overlay_precedence_amended.1 conf4 oraclesOff env4w f4w (s2l "3")
    (Val.vInt 3) rfl rfl rfl rfl (fun h => Bool.noConfusion h)

/-- C4 counterexample: environment use is enabled and the key is present
with value `0`, whose coercion into the int leaf (holding the file value
7) is 0 — yet after `processField` the leaf holds the default 5, not the
coerced environment value, because the default injection sees a zero
value and overwrites it. -/
theorem env_overlay_default_counterexample :
    conf4.useEnv = true
    ∧ env4d (formatEnvKey conf4.envPfx f4d.path) = some (s2l "0")
    ∧ setValue oraclesOff conf4.timeLayout f4d.ty f4d.value (s2l "0") =
        (Val.vInt 0, none)
    ∧ processField conf4 oraclesOff env4d f4d = (Val.vInt 5, none)
    ∧ Val.vInt 5 ≠ Val.vInt 0 :=
  ⟨rfl, rfl, rfl, rfl, by simp⟩

/-- Atomicity of the fueled coercion for every non-pointer destination:
whenever an error is returned, the destination's value after the call is
its prior value.  (Pointer destinations are excluded: the allocation of a
nil pointer persists across a failing pointee coercion.) -/
theorem setValueAux_error_preserves (ext : Oracles) (layout : List Char) :
    ∀ (fuel : Nat) (t : Ty) (v : Val) (val : List Char),
      t.isPtr = false →
      (setValueAux ext layout fuel t v val).2.isSome = true →
      (setValueAux ext layout fuel t v val).1 = v := by
  intro fuel t v val hp he
  cases fuel with
  | zero => rfl
  | succ fuel =>
    cases t with
    | tPtr te => simp [Ty.isPtr] at hp
    | tSlice te =>
      revert he
      simp only [setValueAux]
      cases hr : (stringSlice val).foldl
          (fun acc s =>
            match acc with
            | Except.error e => Except.error e
            | Except.ok elems =>
              match setValueAux ext layout fuel te (zeroVal te) s with
              | (_, some e) => Except.error e
              | (ev, none) => Except.ok (elems ++ [ev]))
          (Except.ok []) with
      | error e => intro _; rfl
      | ok elems => intro he; cases he
    | tBool =>
      revert he
      simp only [setValueAux]
      cases hb : goParseBool val with
      | error e => intro _; rfl
      | ok b => intro he; cases he
    | tInt bits =>
      revert he
      simp only [setValueAux]
      cases hb : goParseInt64 val with
      | error e => intro _; rfl
      | ok i => intro he; cases he
    | tUint bits =>
      revert he
      simp only [setValueAux]
      cases hb : goParseUint64 val with
      | error e => intro _; rfl
      | ok n => intro he; cases he
    | tFloat bits =>
      revert he
      simp only [setValueAux]
      cases hb : ext.parseFloat val with
      | none => intro _; rfl
      | some f => intro he; cases he
    | tDuration =>
      revert he
      simp only [setValueAux]
      cases hb : ext.parseDuration val with
      | none => intro _; rfl
      | some d => intro he; cases he
    | tTime =>
      revert he
      simp only [setValueAux]
      cases hb : ext.parseTime layout val with
      | none => intro _; rfl
      | some tm => intro he; cases he
    | tString =>
      revert he
      simp only [setValueAux]
      intro he; cases he
    | tStruct => rfl
    | tIface => rfl

/-- C1 (amended): value coercion is atomic on failure for every non-pointer
leaf destination — in particular coercing `-5` into any unsigned leaf
fails and leaves it at its prior value, and a failing element leaves a
whole sequence unchanged; a failing coercion through a nil pointer however
leaves the pointer allocated (non-nil, zero pointee), see the
counterexample. -/
theorem setValue_atomic_amended :
    (∀ (ext : Oracles) (layout : List Char) (t : Ty) (v : Val)
        (val : List Char), t.isPtr = false →
        (setValue ext layout t v val).2.isSome = true →
        (setValue ext layout t v val).1 = v)
    ∧ (∀ (ext : Oracles) (layout : List Char) (bits : Nat) (v : Val),
        (setValue ext layout (Ty.tUint bits) v (s2l "-5")).2.isSome = true
        ∧ (setValue ext layout (Ty.tUint bits) v (s2l "-5")).1 = v)
    ∧ (∀ (ext : Oracles) (layout : List Char) (te : Ty) (v : Val)
        (val : List Char),
        (setValue ext layout (Ty.tSlice te) v val).2.isSome = true →
        (setValue ext layout (Ty.tSlice te) v val).1 = v) :=
  ⟨fun ext layout t v val hp he =>
      setValueAux_error_preserves ext layout t.depth t v val hp he,
    fun _ _ _ _ => ⟨rfl, rfl⟩,
    fun ext layout te v val he =>
      setValueAux_error_preserves ext layout (Ty.tSlice te).depth
        (Ty.tSlice te) v val rfl he⟩

/-- C1 witness: a bad boolean literal leaves a bool leaf unchanged. -/
theorem setValue_atomic_amended_witness :
    (setValue oraclesOff [] Ty.tBool (Val.vBool false) (s2l "nope")).1 =
      Val.vBool false :=
  setValue_atomic_amended.1 oraclesOff [] Ty.tBool (Val.vBool false)
    (s2l "nope") rfl rfl

/-- C1 counterexample: coercing `-5` through a nil `*uint64` pointer fails,
but the pointer does not stay nil — `setValue` first allocates the pointee
(confucius.go:347-348) and the allocation persists, so the destination is
left as a non-nil pointer to zero. -/
theorem setValue_nilptr_counterexample :
    (setValue oraclesOff [] (Ty.tPtr (Ty.tUint 64)) (Val.vPtr none)
        (s2l "-5")).2.isSome = true
    ∧ (setValue oraclesOff [] (Ty.tPtr (Ty.tUint 64)) (Val.vPtr none)
        (s2l "-5")).1 = Val.vPtr (some (Val.vUint 0))
    ∧ Val.vPtr (some (Val.vUint 0)) ≠ Val.vPtr none :=
  ⟨rfl, rfl, by simp⟩

/-- C2 (amended): a signed non-duration destination is parsed with
`strconv.ParseInt(val, 10, 64)` — at 64-bit width, not the destination's
width; a literal that is non-numeric or out of int64 range is reported as
a returned error with the destination unchanged, but a literal within
int64 range and outside the destination's width is silently truncated
two's-complement by `SetInt` (so `300` into an int8 leaf succeeds with
44 rather than erroring). -/
theorem setValue_int_parses_at_64_bits :
    (∀ (ext : Oracles) (layout : List Char) (bits : Nat) (v : Val)
        (val : List Char) (e : GoErr), goParseInt64 val = Except.error e →
        setValue ext layout (Ty.tInt bits) v val = (v, some e))
    ∧ (∀ (ext : Oracles) (layout : List Char) (v : Val),
        setValue ext layout (Ty.tInt 8) v (s2l "300") = (Val.vInt 44, none))
    ∧ (∃ e, goParseInt64 (s2l "9223372036854775808") = Except.error e)
    ∧ (∃ e, goParseInt64 (s2l "abc") = Except.error e) := by
  refine ⟨?_, ?_, ⟨_, rfl⟩, ⟨_, rfl⟩⟩
  · intro ext layout bits v val e hp
    simp [setValue, Ty.depth, setValueAux, hp]
  · intro ext layout v
    rfl

/-- C2 witness: a non-numeric literal into an int16 leaf errors and leaves
the leaf unchanged. -/
theorem setValue_int_parses_at_64_bits_witness :
    setValue oraclesOff [] (Ty.tInt 16) (Val.vInt 3) (s2l "xy") =
      (Val.vInt 3, some (numErr "ParseInt" (s2l "xy") "invalid syntax")) :=
  setValue_int_parses_at_64_bits.1 oraclesOff [] 16 (Val.vInt 3) (s2l "xy")
    (numErr "ParseInt" (s2l "xy") "invalid syntax") rfl

/-- C2 counterexample: coercing `300` into an int8 leaf does not error —
the parse succeeds at 64-bit width and `SetInt` truncates to 44. -/
theorem setValue_int8_truncation_counterexample :
    setValue oraclesOff [] (Ty.tInt 8) (Val.vInt 0) (s2l "300") =
      (Val.vInt 44, none)
    ∧ (setValue oraclesOff [] (Ty.tInt 8) (Val.vInt 0) (s2l "300")).2 =
        none :=
  ⟨rfl, rfl⟩
